import Mathlib

/-!
Shallow embedding of the SSTable builder from mini-lsm
(src/mini-lsm-starter/src/table/builder.rs), together with proofs about the
construction algorithm: block sealing, first-key indexing, metadata offsets,
the 32-bit trailer, and the error behaviour of build.

Bytes are modelled as natural numbers, byte sequences as lists.  The external
collaborators (BlockBuilder, BlockMeta encoding, FileObject) are not part of
the visible source; they are modelled from the specification, as documented on
each definition.
-/

namespace MiniLsm

/-- Big-endian 2-byte encoding of a natural number (low 16 bits). -/
def u16be (n : Nat) : List Nat :=
  [n / 2 ^ 8 % 2 ^ 8, n % 2 ^ 8]

/-- Big-endian 4-byte encoding of a natural number (low 32 bits).  This is the
encoding produced by BufMut::put_u32 applied to a usize cast with "as u32":
only the value modulo 2 ^ 32 is representable in the four bytes. -/
def u32be (n : Nat) : List Nat :=
  [n / 2 ^ 24 % 2 ^ 8, n / 2 ^ 16 % 2 ^ 8, n / 2 ^ 8 % 2 ^ 8, n % 2 ^ 8]

/-- Big-endian 8-byte encoding of a natural number (low 64 bits). -/
def u64be (n : Nat) : List Nat :=
  [n / 2 ^ 56 % 2 ^ 8, n / 2 ^ 48 % 2 ^ 8, n / 2 ^ 40 % 2 ^ 8, n / 2 ^ 32 % 2 ^ 8,
   n / 2 ^ 24 % 2 ^ 8, n / 2 ^ 16 % 2 ^ 8, n / 2 ^ 8 % 2 ^ 8, n % 2 ^ 8]

/-- Decode a 4-byte big-endian sequence back into a natural number. -/
def decodeU32be : List Nat → Nat
  | [a, b, c, d] => ((a * 2 ^ 8 + b) * 2 ^ 8 + c) * 2 ^ 8 + d
  | _ => 0

/-- Concatenation of a list of byte sequences. -/
def concatL (l : List (List Nat)) : List Nat :=
  l.foldr (fun a b => a ++ b) []

/-- Modelled from the spec: the BlockBuilder collaborator (crate::block) is not
part of the visible source.  The spec describes it as a capacity-bounded
accumulator for key-value entries within one block, which signals "block full"
instead of growing unbounded.  We model it as the list of accepted entries
plus the configured byte-size capacity. -/
structure BlockBuilder where
  block_size : Nat
  entries : List (List Nat × List Nat)
deriving DecidableEq

/-- Modelled from the spec: the byte cost of one entry inside a block
(two 2-byte length prefixes plus the key and value bytes). -/
def entryCost (k v : List Nat) : Nat :=
  4 + k.length + v.length

/-- Modelled from the spec: serialized form of one entry. -/
def entryEncode (k v : List Nat) : List Nat :=
  u16be k.length ++ k ++ u16be v.length ++ v

/-- Modelled from the spec: BlockBuilder::new(capacity_bound). -/
def BlockBuilder.new (block_size : Nat) : BlockBuilder :=
  { block_size := block_size, entries := [] }

/-- Modelled from the spec: the current serialized byte size of the block
(2-byte entry count plus all entry encodings). -/
def BlockBuilder.currentSize (b : BlockBuilder) : Nat :=
  2 + (b.entries.map (fun e => entryCost e.1 e.2)).sum

/-- Modelled from the spec: BlockBuilder::add(key, value) -> bool.  The entry
is accepted (some) exactly when it fits within the byte-size capacity;
otherwise the accumulator reports "block full" (none) and is unchanged. -/
def BlockBuilder.add (b : BlockBuilder) (k v : List Nat) : Option BlockBuilder :=
  if b.currentSize + entryCost k v ≤ b.block_size then
    some { b with entries := b.entries ++ [(k, v)] }
  else
    none

/-- Modelled from the spec: BlockBuilder::build().encode(), the serialized
bytes of the finished block: entry count followed by the entry encodings. -/
def BlockBuilder.encode (b : BlockBuilder) : List Nat :=
  u16be b.entries.length ++ concatL (b.entries.map (fun e => entryEncode e.1 e.2))

/-- BlockMeta (declared in the table module, constructed in builder.rs):
the byte offset of a block within the data region and the first key added to
that block. -/
structure BlockMeta where
  offset : Nat
  first_key : List Nat
deriving DecidableEq

/-- Modelled from the spec: BlockMeta::encode_block_meta, the self-describing
index section: entry count, then for each entry its offset (8 bytes) and its
first-key length and bytes. -/
def encode_block_meta (metas : List BlockMeta) : List Nat :=
  u32be metas.length
    ++ concatL (metas.map (fun m => u64be m.offset ++ u16be m.first_key.length ++ m.first_key))

/-- Modelled from the spec: a handle to a persisted byte buffer. -/
structure FileObject where
  contents : List Nat
deriving DecidableEq

/-- SsTable as constructed by builder.rs: the struct literal in build names
exactly these three fields (a Rust struct literal must name every field),
matching the data model of the spec. -/
structure SsTable where
  file : FileObject
  block_metas : List BlockMeta
  block_meta_offset : Nat
deriving DecidableEq

/-- The SSTable builder state (struct SsTableBuilder in builder.rs). -/
structure SsTableBuilder where
  meta : List BlockMeta
  ongoing_block_builder : BlockBuilder
  first_key : List Nat
  data : List Nat
  block_size : Nat
deriving DecidableEq

/-- SsTableBuilder::new(block_size). -/
def SsTableBuilder.new (block_size : Nat) : SsTableBuilder :=
  { meta := []
    ongoing_block_builder := BlockBuilder.new block_size
    data := []
    block_size := block_size
    first_key := [] }

/-- SsTableBuilder::finish_block: push a BlockMeta with offset data.len() and
the taken first key, swap in a fresh BlockBuilder, and extend data with the
old accumulator serialized. -/
def SsTableBuilder.finish_block (s : SsTableBuilder) : SsTableBuilder :=
  let s1 : SsTableBuilder := { s with
    meta := s.meta ++ [{ offset := s.data.length, first_key := s.first_key }],
    first_key := [] }
  let ready_builder := s1.ongoing_block_builder
  let s2 := { s1 with ongoing_block_builder := BlockBuilder.new s1.block_size }
  let encoded_data := ready_builder.encode
  { s2 with data := s2.data ++ encoded_data }

/-- SsTableBuilder::add(key, value) under the semantics of a build with debug
assertions enabled: debug_assert! evaluates its argument, so after a seal the
pair is inserted into the fresh accumulator, and a failed assertion is a
panic, modelled as none. -/
def SsTableBuilder.add (s : SsTableBuilder) (key value : List Nat) :
    Option SsTableBuilder :=
  let s1 := if s.first_key = [] then { s with first_key := key } else s
  match s1.ongoing_block_builder.add key value with
  | some b => some { s1 with ongoing_block_builder := b }
  | none =>
    let s2 := s1.finish_block
    match s2.ongoing_block_builder.add key value with
    | some b => some { s2 with ongoing_block_builder := b, first_key := key }
    | none => none

/-- SsTableBuilder::add(key, value) under release semantics: debug_assert!
compiles away together with its argument, so after a seal the call
ongoing_block_builder.add(key, value) is never executed and the pair is
silently dropped; only first_key is updated. -/
def SsTableBuilder.addRelease (s : SsTableBuilder) (key value : List Nat) :
    SsTableBuilder :=
  let s1 := if s.first_key = [] then { s with first_key := key } else s
  match s1.ongoing_block_builder.add key value with
  | some b => { s1 with ongoing_block_builder := b }
  | none => { s1.finish_block with first_key := key }

/-- SsTableBuilder::estimated_size: data.len(). -/
def SsTableBuilder.estimated_size (s : SsTableBuilder) : Nat :=
  s.data.length

/-- SsTableBuilder::build(id, block_cache, path).  The persistence collaborator
FileObject::create is passed in as a function; builder.rs calls
FileObject::create(path, buffer).unwrap(), so a failed create is a panic,
modelled as none, and the anyhow Result returned on the non-panicking path is
always Ok. -/
def SsTableBuilder.build (s : SsTableBuilder) (id : Nat) (block_cache : Option Nat)
    (path : List Nat) (create : List Nat → List Nat → Except String FileObject) :
    Option (Except String SsTable) :=
  let s1 := s.finish_block
  let block_meta_offset := s1.data.length
  let buffer := s1.data
  let buffer := buffer ++ encode_block_meta s1.meta
  let buffer := buffer ++ u32be block_meta_offset
  match create path buffer with
  | Except.ok f =>
    some (Except.ok { file := f, block_metas := s1.meta, block_meta_offset := block_meta_offset })
  | Except.error _ => none

/-- A persistence collaborator that always succeeds, storing the buffer. -/
def okCreate : List Nat → List Nat → Except String FileObject :=
  fun _ buffer => Except.ok { contents := buffer }

/-- A persistence collaborator that always fails with an I/O error. -/
def failCreate : List Nat → List Nat → Except String FileObject :=
  fun _ _ => Except.error "io error"

/-- The table produced by build when persistence succeeds. -/
def builtTable (s : SsTableBuilder) : SsTable :=
  { file := { contents :=
      (s.finish_block.data ++ encode_block_meta s.finish_block.meta)
        ++ u32be s.finish_block.data.length }
    block_metas := s.finish_block.meta
    block_meta_offset := s.finish_block.data.length }

/-- The value stored in the last four bytes of the persisted file. -/
def trailerValue (t : SsTable) : Nat :=
  decodeU32be (t.file.contents.drop (t.file.contents.length - 4))

/-- Run a list of add calls, also counting how many times the ongoing block
accumulator reported "block full".  none propagates a panic from add. -/
def runAdds : SsTableBuilder → List (List Nat × List Nat) →
    Option (SsTableBuilder × Nat)
  | s, [] => some (s, 0)
  | s, (k, v) :: rest =>
    match s.add k v with
    | none => none
    | some s1 =>
      match runAdds s1 rest with
      | none => none
      | some (s2, c) =>
        some (s2, if (s.ongoing_block_builder.add k v).isNone then c + 1 else c)

/-- Lexicographic order test on byte sequences. -/
def lexLe : List Nat → List Nat → Bool
  | [], _ => true
  | _ :: _, [] => false
  | a :: as, b :: bs => if a < b then true else if a = b then lexLe as bs else false

/-- The keys of the pair sequence are non-decreasing. -/
def keysSortedB : List (List Nat × List Nat) → Bool
  | [] => true
  | [_] => true
  | x :: y :: rest => lexLe x.1 y.1 && keysSortedB (y :: rest)

/-- Every key in the pair sequence is non-empty. -/
def allKeysNonempty (ps : List (List Nat × List Nat)) : Bool :=
  ps.all (fun p => decide (p.1 ≠ []))

/-- The pending first key seen as an optional value: an empty byte sequence
stands for "no first pair recorded since the last seal". -/
def curOf (k : List Nat) : Option (List Nat) :=
  if k = [] then none else some k

/-- Definition following the wording of the specification, for comparison with
the builder: walking the add calls with the block accumulator, it returns, per
sealed block, the key of the first add call after the previous seal (the very
first add call for block 0); the pair that triggers a seal counts as the first
pair of the new block.  The final entry is the pending first key at build
time. -/
def specFirstKeys (bb : BlockBuilder) (cur : Option (List Nat)) :
    List (List Nat × List Nat) → List (List Nat)
  | [] => [cur.getD []]
  | (k, v) :: rest =>
    match bb.add k v with
    | some bb2 => specFirstKeys bb2 (some (cur.getD k)) rest
    | none =>
      match (BlockBuilder.new bb.block_size).add k v with
      | some bb2 => cur.getD [] :: specFirstKeys bb2 (some k) rest
      | none => [cur.getD []]

/-- Offsets of consecutive chunks of the given lengths, starting at acc. -/
def cumOffsets : Nat → List Nat → List Nat
  | _, [] => []
  | acc, n :: ns => acc :: cumOffsets (acc + n) ns

/-- The list of naturals is strictly increasing from left to right. -/
def StrictAscending : List Nat → Prop
  | [] => True
  | [_] => True
  | a :: b :: l => a < b ∧ StrictAscending (b :: l)

/-- Demo input: with block size 8, the second pair no longer fits and
triggers a seal. -/
def demoPairs : List (List Nat × List Nat) :=
  [([1], [2]), ([3], [4])]

/-- Builder state after running demoPairs from a fresh builder. -/
def demoState : SsTableBuilder :=
  ((runAdds (SsTableBuilder.new 8) demoPairs).getD (SsTableBuilder.new 8, 0)).1

/-- Builder state after the first demo pair only. -/
def demoAfterOne : SsTableBuilder :=
  ((SsTableBuilder.new 8).add [1] [2]).getD (SsTableBuilder.new 8)

/-- A builder state whose data region already holds 2 ^ 32 bytes. -/
def bigState : SsTableBuilder :=
  { meta := []
    ongoing_block_builder := BlockBuilder.new 8
    first_key := []
    data := List.replicate (2 ^ 32) 0
    block_size := 8 }

/-- Demo input whose first key is the empty byte sequence. -/
def c5pairs : List (List Nat × List Nat) :=
  [([], [5]), ([0], [6])]

/-- Builder state after running c5pairs from a fresh builder. -/
def c5state : SsTableBuilder :=
  ((runAdds (SsTableBuilder.new 30) c5pairs).getD (SsTableBuilder.new 30, 0)).1

lemma u32be_length (n : Nat) : (u32be n).length = 4 := rfl

lemma decodeU32be_u32be (n : Nat) : decodeU32be (u32be n) = n % 2 ^ 32 := by
  simp only [u32be, decodeU32be]
  omega

lemma build_okCreate (s : SsTableBuilder) (id : Nat) (cache : Option Nat)
    (path : List Nat) :
    s.build id cache path okCreate = some (Except.ok (builtTable s)) := rfl

lemma builtTable_offset (s : SsTableBuilder) :
    (builtTable s).block_meta_offset = s.finish_block.data.length := rfl

lemma builtTable_metas (s : SsTableBuilder) :
    (builtTable s).block_metas = s.finish_block.meta := rfl

lemma builtTable_contents (s : SsTableBuilder) :
    (builtTable s).file.contents
      = (s.finish_block.data ++ encode_block_meta s.finish_block.meta)
          ++ u32be s.finish_block.data.length := rfl

lemma builtTable_contents_length (s : SsTableBuilder) :
    (builtTable s).file.contents.length
      = s.finish_block.data.length + (encode_block_meta s.finish_block.meta).length + 4 := by
  rw [builtTable_contents, List.length_append, List.length_append, u32be_length]

lemma builtTable_trailer (s : SsTableBuilder) :
    trailerValue (builtTable s) = s.finish_block.data.length % 2 ^ 32 := by
  rw [trailerValue, builtTable_contents, List.length_append, u32be_length,
    Nat.add_sub_cancel, List.drop_left, decodeU32be_u32be]

lemma blockBuilderAdd_eq_some {b : BlockBuilder} {k v : List Nat} {b2 : BlockBuilder}
    (h : b.add k v = some b2) :
    b2 = { b with entries := b.entries ++ [(k, v)] } := by
  unfold BlockBuilder.add at h
  split at h
  · exact (Option.some.inj h).symm
  · cases h

lemma BlockBuilder.add_block_size {b : BlockBuilder} {k v : List Nat} {b2 : BlockBuilder}
    (h : b.add k v = some b2) : b2.block_size = b.block_size := by
  rw [blockBuilderAdd_eq_some h]

lemma finish_block_eq (s : SsTableBuilder) :
    s.finish_block
      = { meta := s.meta ++ [{ offset := s.data.length, first_key := s.first_key }],
          ongoing_block_builder := BlockBuilder.new s.block_size,
          first_key := [],
          data := s.data ++ s.ongoing_block_builder.encode,
          block_size := s.block_size } := rfl

lemma tableBuilderAdd_eq_some {s : SsTableBuilder} {k v : List Nat}
    {s2 : SsTableBuilder} (h : s.add k v = some s2) :
    (∃ b, s.ongoing_block_builder.add k v = some b ∧
        s2 = { s with
          first_key := if s.first_key = [] then k else s.first_key,
          ongoing_block_builder := b })
    ∨ (∃ b, s.ongoing_block_builder.add k v = none ∧
        (BlockBuilder.new s.block_size).add k v = some b ∧
        s2 = { meta := s.meta ++
                 [⟨s.data.length, if s.first_key = [] then k else s.first_key⟩],
               ongoing_block_builder := b,
               first_key := k,
               data := s.data ++ s.ongoing_block_builder.encode,
               block_size := s.block_size }) := by
  by_cases hfk : s.first_key = [] <;>
    simp only [SsTableBuilder.add, hfk, if_true, if_false, SsTableBuilder.finish_block] at h <;>
    simp only [hfk, if_true, if_false] <;>
    cases hbb : s.ongoing_block_builder.add k v <;>
    rw [hbb] at h
  · cases hbb2 : (BlockBuilder.new s.block_size).add k v <;> rw [hbb2] at h
    · cases h
    · right
      exact ⟨_, rfl, rfl, (Option.some.inj h).symm⟩
  · left
    exact ⟨_, rfl, (Option.some.inj h).symm⟩
  · cases hbb2 : (BlockBuilder.new s.block_size).add k v <;> rw [hbb2] at h
    · cases h
    · right
      exact ⟨_, rfl, rfl, (Option.some.inj h).symm⟩
  · left
    exact ⟨_, rfl, (Option.some.inj h).symm⟩

lemma runAdds_nil (s : SsTableBuilder) : runAdds s [] = some (s, 0) := rfl

lemma runAdds_cons (s : SsTableBuilder) (k v : List Nat)
    (rest : List (List Nat × List Nat)) :
    runAdds s ((k, v) :: rest)
      = match s.add k v with
        | none => none
        | some s1 =>
          match runAdds s1 rest with
          | none => none
          | some (s2, c) =>
            some (s2, if (s.ongoing_block_builder.add k v).isNone then c + 1 else c) := rfl

lemma runAdds_cons_inv {s : SsTableBuilder} {k v : List Nat}
    {rest : List (List Nat × List Nat)} {s2 : SsTableBuilder} {c : Nat}
    (h : runAdds s ((k, v) :: rest) = some (s2, c)) :
    ∃ s1 c3, s.add k v = some s1 ∧ runAdds s1 rest = some (s2, c3) ∧
      c = if (s.ongoing_block_builder.add k v).isNone then c3 + 1 else c3 := by
  rw [runAdds_cons] at h
  split at h
  · simp at h
  · rename_i s1 heq
    split at h
    · simp at h
    · rename_i r s4 c4 heq2
      simp only [Option.some.injEq, Prod.mk.injEq] at h
      obtain ⟨rfl, rfl⟩ := h
      exact ⟨s1, c4, heq, heq2, rfl⟩

lemma runAdds_meta_length :
    ∀ (ps : List (List Nat × List Nat)) (s s2 : SsTableBuilder) (c : Nat),
      runAdds s ps = some (s2, c) → s2.meta.length = s.meta.length + c := by
  intro ps
  induction ps with
  | nil =>
    intro s s2 c h
    rw [runAdds_nil] at h
    simp only [Option.some.injEq, Prod.mk.injEq] at h
    obtain ⟨rfl, rfl⟩ := h
    rfl
  | cons p rest ih =>
    obtain ⟨k, v⟩ := p
    intro s s2 c h
    obtain ⟨s1, c3, hadd, hrun, rfl⟩ := runAdds_cons_inv h
    have hlen := ih s1 s2 c3 hrun
    rcases tableBuilderAdd_eq_some hadd with ⟨b, hbb, rfl⟩ | ⟨b, hbbn, hbb2, rfl⟩
    · simp only [hbb, Option.isNone_some, Bool.false_eq_true, if_false]
      simpa using hlen
    · simp only [hbbn, Option.isNone_none, if_true]
      simp only [List.length_append, List.length_cons, List.length_nil] at hlen
      omega

lemma runAdds_data_mono :
    ∀ (ps : List (List Nat × List Nat)) (s s2 : SsTableBuilder) (c : Nat),
      runAdds s ps = some (s2, c) → s.data.length ≤ s2.data.length := by
  intro ps
  induction ps with
  | nil =>
    intro s s2 c h
    rw [runAdds_nil] at h
    simp only [Option.some.injEq, Prod.mk.injEq] at h
    obtain ⟨rfl, rfl⟩ := h
    exact Nat.le_refl _
  | cons p rest ih =>
    obtain ⟨k, v⟩ := p
    intro s s2 c h
    obtain ⟨s1, c3, hadd, hrun, rfl⟩ := runAdds_cons_inv h
    have hlen := ih s1 s2 c3 hrun
    rcases tableBuilderAdd_eq_some hadd with ⟨b, hbb, rfl⟩ | ⟨b, hbbn, hbb2, rfl⟩
    · simpa using hlen
    · simp only [List.length_append] at hlen
      omega

lemma concatL_nil : concatL [] = [] := rfl

lemma concatL_cons (x : List Nat) (l : List (List Nat)) :
    concatL (x :: l) = x ++ concatL l := rfl

lemma concatL_append_single (bl : List (List Nat)) (e : List Nat) :
    concatL (bl ++ [e]) = concatL bl ++ e := by
  induction bl with
  | nil => simp [concatL_nil, concatL_cons]
  | cons x xs ih => simp only [List.cons_append, concatL_cons, ih, List.append_assoc]

lemma concatL_length (bl : List (List Nat)) :
    (concatL bl).length = (bl.map List.length).sum := by
  induction bl with
  | nil => rfl
  | cons x xs ih => simp [concatL_cons, ih]

lemma cumOffsets_append_single (ns : List Nat) (n : Nat) :
    ∀ acc, cumOffsets acc (ns ++ [n]) = cumOffsets acc ns ++ [acc + ns.sum] := by
  induction ns with
  | nil => intro acc; simp [cumOffsets]
  | cons m ms ih =>
    intro acc
    show acc :: cumOffsets (acc + m) (ms ++ [n])
        = acc :: (cumOffsets (acc + m) ms ++ [acc + (m :: ms).sum])
    rw [ih (acc + m)]
    simp [List.sum_cons, Nat.add_assoc]

lemma cumOffsets_strictAscending :
    ∀ (ns : List Nat) (acc : Nat), (∀ n ∈ ns, 0 < n) →
      StrictAscending (cumOffsets acc ns) := by
  intro ns
  induction ns with
  | nil => intro acc _; trivial
  | cons m ms ih =>
    intro acc h
    cases ms with
    | nil => exact trivial
    | cons m2 ms2 =>
      show acc < acc + m ∧ StrictAscending (cumOffsets (acc + m) (m2 :: ms2))
      constructor
      · have := h m (by simp)
        omega
      · exact ih (acc + m) (fun n hn => h n (by simp [hn]))

lemma encode_length_ge_two (b : BlockBuilder) : 2 ≤ b.encode.length := by
  simp [BlockBuilder.encode, u16be]

/-- The data region is an in-order concatenation of sealed block encodings
whose cumulative lengths are exactly the recorded offsets. -/
def InvBlocks (s : SsTableBuilder) : Prop :=
  ∃ bl : List (List Nat),
    s.data = concatL bl ∧
    s.meta.map (fun m => m.offset) = cumOffsets 0 (bl.map List.length) ∧
    ∀ b ∈ bl, 2 ≤ b.length

lemma invBlocks_new (bs : Nat) : InvBlocks (SsTableBuilder.new bs) :=
  ⟨[], rfl, rfl, by simp⟩

lemma invBlocks_finish_block {s : SsTableBuilder} (h : InvBlocks s) :
    InvBlocks s.finish_block := by
  obtain ⟨bl, hdata, hoff, hlen⟩ := h
  refine ⟨bl ++ [s.ongoing_block_builder.encode], ?_, ?_, ?_⟩
  · show s.data ++ s.ongoing_block_builder.encode
      = concatL (bl ++ [s.ongoing_block_builder.encode])
    rw [hdata, concatL_append_single]
  · show (s.meta
        ++ [({ offset := s.data.length, first_key := s.first_key } : BlockMeta)]).map
          (fun m => m.offset)
      = cumOffsets 0 ((bl ++ [s.ongoing_block_builder.encode]).map List.length)
    rw [List.map_append, List.map_append, hoff]
    simp only [List.map_cons, List.map_nil]
    rw [cumOffsets_append_single, hdata, concatL_length, Nat.zero_add]
  · intro b hb
    rcases List.mem_append.1 hb with h1 | h1
    · exact hlen b h1
    · simp only [List.mem_singleton] at h1
      subst h1
      exact encode_length_ge_two _

lemma invBlocks_add {s : SsTableBuilder} {k v : List Nat} {s2 : SsTableBuilder}
    (hadd : s.add k v = some s2) (h : InvBlocks s) : InvBlocks s2 := by
  obtain ⟨bl, hdata, hoff, hlen⟩ := h
  rcases tableBuilderAdd_eq_some hadd with ⟨b, hbb, rfl⟩ | ⟨b, hbbn, hbb2, rfl⟩
  · exact ⟨bl, hdata, hoff, hlen⟩
  · refine ⟨bl ++ [s.ongoing_block_builder.encode], ?_, ?_, ?_⟩
    · show s.data ++ s.ongoing_block_builder.encode
        = concatL (bl ++ [s.ongoing_block_builder.encode])
      rw [hdata, concatL_append_single]
    · show (s.meta
          ++ [({ offset := s.data.length,
                 first_key := if s.first_key = [] then k else s.first_key } : BlockMeta)]).map
            (fun m => m.offset)
        = cumOffsets 0 ((bl ++ [s.ongoing_block_builder.encode]).map List.length)
      rw [List.map_append, List.map_append, hoff]
      simp only [List.map_cons, List.map_nil]
      rw [cumOffsets_append_single, hdata, concatL_length, Nat.zero_add]
    · intro e he
      rcases List.mem_append.1 he with h1 | h1
      · exact hlen e h1
      · simp only [List.mem_singleton] at h1
        subst h1
        exact encode_length_ge_two _

lemma invBlocks_runAdds :
    ∀ (ps : List (List Nat × List Nat)) (s s2 : SsTableBuilder) (c : Nat),
      runAdds s ps = some (s2, c) → InvBlocks s → InvBlocks s2 := by
  intro ps
  induction ps with
  | nil =>
    intro s s2 c h hinv
    rw [runAdds_nil] at h
    simp only [Option.some.injEq, Prod.mk.injEq] at h
    obtain ⟨rfl, rfl⟩ := h
    exact hinv
  | cons p rest ih =>
    obtain ⟨k, v⟩ := p
    intro s s2 c h hinv
    obtain ⟨s1, c3, hadd, hrun, rfl⟩ := runAdds_cons_inv h
    exact ih s1 s2 c3 hrun (invBlocks_add hadd hinv)

lemma curOf_getD (fk : List Nat) : (curOf fk).getD [] = fk := by
  unfold curOf
  split
  · simp_all
  · rfl

lemma curOf_of_ne {k : List Nat} (h : k ≠ []) : curOf k = some k := by
  unfold curOf
  rw [if_neg h]

lemma specFirstKeys_nil (bb : BlockBuilder) (cur : Option (List Nat)) :
    specFirstKeys bb cur [] = [cur.getD []] := rfl

lemma specFirstKeys_cons_accept {bb : BlockBuilder} {k v : List Nat} {bb2 : BlockBuilder}
    (h : bb.add k v = some bb2) (cur : Option (List Nat))
    (rest : List (List Nat × List Nat)) :
    specFirstKeys bb cur ((k, v) :: rest)
      = specFirstKeys bb2 (some (cur.getD k)) rest := by
  conv_lhs => unfold specFirstKeys
  rw [h]

lemma specFirstKeys_cons_seal {bb : BlockBuilder} {k v : List Nat} {bb2 : BlockBuilder}
    (h1 : bb.add k v = none) (h2 : (BlockBuilder.new bb.block_size).add k v = some bb2)
    (cur : Option (List Nat)) (rest : List (List Nat × List Nat)) :
    specFirstKeys bb cur ((k, v) :: rest)
      = cur.getD [] :: specFirstKeys bb2 (some k) rest := by
  conv_lhs => unfold specFirstKeys
  rw [h1, h2]

lemma runAdds_firstKeys :
    ∀ (ps : List (List Nat × List Nat)) (s s2 : SsTableBuilder) (c : Nat),
      (∀ p ∈ ps, p.1 ≠ ([] : List Nat)) →
      s.ongoing_block_builder.block_size = s.block_size →
      (s.first_key = [] → s.ongoing_block_builder = BlockBuilder.new s.block_size) →
      runAdds s ps = some (s2, c) →
      s2.meta.map (fun m => m.first_key) ++ [s2.first_key]
        = s.meta.map (fun m => m.first_key)
            ++ specFirstKeys s.ongoing_block_builder (curOf s.first_key) ps := by
  intro ps
  induction ps with
  | nil =>
    intro s s2 c _ _ _ h
    rw [runAdds_nil] at h
    simp only [Option.some.injEq, Prod.mk.injEq] at h
    obtain ⟨rfl, rfl⟩ := h
    rw [specFirstKeys_nil, curOf_getD]
  | cons p rest ih =>
    obtain ⟨k, v⟩ := p
    intro s s2 c hne hbs hfresh h
    obtain ⟨s1, c3, hadd, hrun, rfl⟩ := runAdds_cons_inv h
    have hkne : k ≠ ([] : List Nat) := hne (k, v) (by simp)
    rcases tableBuilderAdd_eq_some hadd with ⟨b, hbb, rfl⟩ | ⟨b, hbbn, hbb2, rfl⟩
    · -- the accumulator accepted the pair: no seal
      rw [specFirstKeys_cons_accept hbb]
      have hcur : curOf (if s.first_key = [] then k else s.first_key)
          = some ((curOf s.first_key).getD k) := by
        by_cases hfk : s.first_key = []
        · rw [if_pos hfk, hfk]
          rw [curOf_of_ne hkne]
          rfl
        · rw [if_neg hfk, curOf_of_ne hfk]
          rfl
      have ih2 := ih _ s2 c3 (fun q hq => hne q (by simp [hq]))
        (by
          show b.block_size = s.block_size
          rw [BlockBuilder.add_block_size hbb, hbs])
        (by
          intro hcontra
          exfalso
          by_cases hfk : s.first_key = []
          · rw [if_pos hfk] at hcontra
            exact hkne hcontra
          · rw [if_neg hfk] at hcontra
            exact hfk hcontra)
        hrun
      rw [ih2]
      show s.meta.map (fun m => m.first_key)
            ++ specFirstKeys b (curOf (if s.first_key = [] then k else s.first_key)) rest
          = _
      rw [hcur]
    · -- the accumulator reported full: seal, then insert into the fresh block
      by_cases hfk : s.first_key = []
      · exfalso
        rw [hfresh hfk] at hbbn
        rw [hbbn] at hbb2
        cases hbb2
      · have hbb2s : (BlockBuilder.new s.ongoing_block_builder.block_size).add k v
            = some b := by rw [hbs]; exact hbb2
        rw [specFirstKeys_cons_seal hbbn hbb2s, curOf_getD]
        have ih2 := ih _ s2 c3 (fun q hq => hne q (by simp [hq]))
          (by
            show b.block_size = s.block_size
            rw [BlockBuilder.add_block_size hbb2]
            rfl)
          (fun hcontra => absurd hcontra hkne)
          hrun
        rw [ih2]
        show (s.meta
              ++ [({ offset := s.data.length,
                     first_key := if s.first_key = [] then k else s.first_key } : BlockMeta)]).map
                (fun m => m.first_key)
            ++ specFirstKeys b (curOf k) rest
          = _
        rw [List.map_append, curOf_of_ne hkne, if_neg hfk]
        simp [List.append_assoc]

lemma bigState_data_length : bigState.finish_block.data.length = 2 ^ 32 + 2 := by
  rw [finish_block_eq]
  show (bigState.data ++ bigState.ongoing_block_builder.encode).length = 2 ^ 32 + 2
  rw [List.length_append]
  have h1 : bigState.data.length = 2 ^ 32 := by
    show (List.replicate (2 ^ 32) 0).length = 2 ^ 32
    exact List.length_replicate _ _
  have h2 : bigState.ongoing_block_builder.encode.length = 2 := rfl
  rw [h1, h2]

lemma pow_two_32_eq : (2 : Nat) ^ 32 = 4294967296 := by norm_num

/-- Claim C1: the claim says that when the block accumulator reports failure
the builder seals the current block and then inserts the triggering pair into
the newly created accumulator, so the pair is present in the new block.  The
source places that insertion inside debug_assert!, which in a release build
discards its argument, so the pair is silently dropped.  At the input below
the accumulator reports full; the release-semantics add leaves the fresh
block empty, while the debug-semantics add (matching the claim) inserts the
pair. -/
theorem claim_C1_release_drops_sealing_pair :
    demoAfterOne.ongoing_block_builder.add [3] [4] = none
    ∧ (demoAfterOne.addRelease [3] [4]).ongoing_block_builder.entries = []
    ∧ (demoAfterOne.add [3] [4]).map (fun u => u.ongoing_block_builder.entries)
        = some [([3], [4])] := by
  decide

/-- Claim C2: the claim says a failing persistence call is propagated to the
caller as an error result.  builder.rs calls FileObject::create(..).unwrap(),
so a failing create panics: with the always-failing persistence collaborator,
build evaluates to the panic outcome (none) and never to a returned error
value. -/
theorem claim_C2_build_panics_on_create_failure :
    demoState.build 0 none [] failCreate = none := rfl

/-- Claim C3 counterexample: the claim says the returned Table stores the
cache handle as a field.  Building the same state with two different cache
handles returns identical Tables, which is impossible if the handle were
stored in the result: the handle is discarded. -/
theorem claim_C3_counterexample :
    demoState.build 7 (some 42) [9] okCreate = demoState.build 7 none [9] okCreate := rfl

/-- Claim C3 (amended): build accepts the optional cache handle argument but
discards it: the result is independent of the handle, and the returned Table
holds only the file, the block metas and the block meta offset; the builder
never mutates or reads through the handle. -/
theorem claim_C3_cache_handle_ignored (s : SsTableBuilder) (id : Nat)
    (c1 c2 : Option Nat) (path : List Nat)
    (create : List Nat → List Nat → Except String FileObject) :
    s.build id c1 path create = s.build id c2 path create := rfl

/-- Claim C4 (amended): for every successfully built table, block_meta_offset
equals the byte length of the data region, and equals the persisted buffer
length minus the encoded metadata length minus 4; the final four bytes are a
32-bit trailer containing block_meta_offset modulo 2 ^ 32, which is exactly
block_meta_offset whenever it is below 2 ^ 32. -/
theorem claim_C4_offset_and_trailer (s : SsTableBuilder) (id : Nat)
    (cache : Option Nat) (path : List Nat) (t : SsTable)
    (hbuild : s.build id cache path okCreate = some (Except.ok t)) :
    t.block_meta_offset = s.finish_block.data.length
    ∧ t.block_meta_offset
        = t.file.contents.length - (encode_block_meta t.block_metas).length - 4
    ∧ trailerValue t = t.block_meta_offset % 2 ^ 32
    ∧ (t.block_meta_offset < 2 ^ 32 → trailerValue t = t.block_meta_offset) := by
  simp only [build_okCreate, Option.some.injEq, Except.ok.injEq] at hbuild
  subst hbuild
  refine ⟨rfl, ?_, ?_, ?_⟩
  · rw [builtTable_offset, builtTable_contents_length, builtTable_metas]
    omega
  · rw [builtTable_trailer, builtTable_offset]
  · intro h
    rw [builtTable_offset] at h
    rw [builtTable_trailer, builtTable_offset]
    exact Nat.mod_eq_of_lt h

/-- Claim C4 witness: the amended claim instantiated at a concrete two-block
build. -/
theorem claim_C4_offset_and_trailer_witness :
    (builtTable demoState).block_meta_offset = demoState.finish_block.data.length
    ∧ trailerValue (builtTable demoState) = (builtTable demoState).block_meta_offset := by
  have h := claim_C4_offset_and_trailer demoState 0 none [] (builtTable demoState)
    (build_okCreate demoState 0 none [])
  exact ⟨h.1, h.2.2.2 (by decide)⟩

/-- Claim C4 counterexample: with a data region of 2 ^ 32 + 2 bytes the final
four bytes cannot contain block_meta_offset: the table built below has
block_meta_offset 2 ^ 32 + 2 while its trailer decodes to 2. -/
theorem claim_C4_counterexample :
    bigState.build 0 none [] okCreate = some (Except.ok (builtTable bigState))
    ∧ trailerValue (builtTable bigState) ≠ (builtTable bigState).block_meta_offset := by
  refine ⟨build_okCreate bigState 0 none [], ?_⟩
  rw [builtTable_trailer, builtTable_offset, bigState_data_length, pow_two_32_eq]
  omega

/-- Claim C5 counterexample: with the non-decreasing key sequence [], [0]
(both pairs land in one block), the first add call after the start has the
empty key, but the built table records [0] as the first key of block 0: the
builder detects the first pair since a seal by first_key being empty, so an
empty first key is overwritten by the next key. -/
theorem claim_C5_counterexample :
    keysSortedB c5pairs = true
    ∧ runAdds (SsTableBuilder.new 30) c5pairs = some (c5state, 0)
    ∧ c5pairs.head?.map (fun p => p.1) = some []
    ∧ (builtTable c5state).block_metas.map (fun m => m.first_key) = [[0]]
    ∧ ([[0]] : List (List Nat)) ≠ [[]] := by
  decide

/-- Claim C5 (amended): for every sequence of add calls with non-decreasing
and non-empty keys followed by build, block_metas[i].first_key equals the key
of the first add call after the i-th seal (the very first add call for i = 0),
as computed by specFirstKeys, which walks the calls with the block accumulator
and takes the key of the first pair after each seal. -/
theorem claim_C5_first_keys (bs : Nat) (ps : List (List Nat × List Nat))
    (s : SsTableBuilder) (c : Nat) (id : Nat) (cache : Option Nat)
    (path : List Nat) (t : SsTable)
    (hsort : keysSortedB ps = true)
    (hne : allKeysNonempty ps = true)
    (hrun : runAdds (SsTableBuilder.new bs) ps = some (s, c))
    (hbuild : s.build id cache path okCreate = some (Except.ok t)) :
    t.block_metas.map (fun m => m.first_key)
      = specFirstKeys (BlockBuilder.new bs) none ps := by
  simp only [build_okCreate, Option.some.injEq, Except.ok.injEq] at hbuild
  subst hbuild
  simp only [allKeysNonempty, List.all_eq_true, decide_eq_true_eq] at hne
  have hkeys := runAdds_firstKeys ps (SsTableBuilder.new bs) s c hne rfl
    (fun _ => rfl) hrun
  have hcur : curOf (SsTableBuilder.new bs).first_key = none := rfl
  rw [hcur] at hkeys
  rw [builtTable_metas, finish_block_eq]
  show (s.meta ++ [({ offset := s.data.length, first_key := s.first_key } : BlockMeta)]).map
      (fun m => m.first_key) = _
  rw [List.map_append]
  simp only [List.map_cons, List.map_nil]
  rw [hkeys]
  rfl

/-- Claim C5 witness: the amended claim instantiated at a concrete run that
seals once. -/
theorem claim_C5_first_keys_witness :
    keysSortedB demoPairs = true
    ∧ allKeysNonempty demoPairs = true
    ∧ (builtTable demoState).block_metas.map (fun m => m.first_key)
        = specFirstKeys (BlockBuilder.new 8) none demoPairs := by
  refine ⟨by decide, by decide, ?_⟩
  exact claim_C5_first_keys 8 demoPairs demoState 1 0 none [] (builtTable demoState)
    (by decide) (by decide) (by decide) (build_okCreate demoState 0 none [])

/-- Claim C6: finish_block deterministically appends a metadata entry whose
offset is the current data length and whose first key is the taken pending
first key (left empty), replaces the ongoing accumulator with a fresh one of
the same target size, and appends the old accumulator serialized bytes to the
data buffer. -/
theorem claim_C6_finish_block_steps (s : SsTableBuilder) :
    s.finish_block
      = { meta := s.meta ++ [{ offset := s.data.length, first_key := s.first_key }],
          ongoing_block_builder := BlockBuilder.new s.block_size,
          first_key := [],
          data := s.data ++ s.ongoing_block_builder.encode,
          block_size := s.block_size } := rfl

/-- Claim C7: in every builder state the next sealed block records offset
equal to the current data length; in the final table the offsets are the
cumulative encoded byte lengths of the sealed blocks, hence strictly
increasing, and the data region is the in-order concatenation of those
blocks. -/
theorem claim_C7_offsets :
    (∀ u : SsTableBuilder,
      u.finish_block.meta
        = u.meta ++ [{ offset := u.data.length, first_key := u.first_key }])
    ∧ (∀ (bs : Nat) (ps : List (List Nat × List Nat)) (s : SsTableBuilder)
        (c : Nat) (id : Nat) (cache : Option Nat) (path : List Nat) (t : SsTable),
        runAdds (SsTableBuilder.new bs) ps = some (s, c) →
        s.build id cache path okCreate = some (Except.ok t) →
        ∃ bl : List (List Nat),
          t.file.contents.take t.block_meta_offset = concatL bl
          ∧ t.block_metas.map (fun m => m.offset) = cumOffsets 0 (bl.map List.length)
          ∧ StrictAscending (t.block_metas.map (fun m => m.offset))) := by
  constructor
  · intro u
    rfl
  · intro bs ps s c id cache path t hrun hbuild
    simp only [build_okCreate, Option.some.injEq, Except.ok.injEq] at hbuild
    subst hbuild
    obtain ⟨bl, hdata, hoff, hlen⟩ :=
      invBlocks_finish_block (invBlocks_runAdds ps _ s c hrun (invBlocks_new bs))
    refine ⟨bl, ?_, ?_, ?_⟩
    · rw [builtTable_contents, builtTable_offset, List.append_assoc, List.take_left]
      exact hdata
    · rw [builtTable_metas]
      exact hoff
    · rw [builtTable_metas, hoff]
      apply cumOffsets_strictAscending
      intro n hn
      simp only [List.mem_map] at hn
      obtain ⟨b, hb, rfl⟩ := hn
      have := hlen b hb
      omega

/-- Claim C7 witness: the run-level part instantiated at a concrete two-block
build. -/
theorem claim_C7_offsets_witness :
    ∃ bl : List (List Nat),
      (builtTable demoState).file.contents.take (builtTable demoState).block_meta_offset
        = concatL bl
      ∧ (builtTable demoState).block_metas.map (fun m => m.offset)
          = cumOffsets 0 (bl.map List.length)
      ∧ StrictAscending ((builtTable demoState).block_metas.map (fun m => m.offset)) :=
  claim_C7_offsets.2 8 demoPairs demoState 1 0 none [] (builtTable demoState)
    (by decide) (build_okCreate demoState 0 none [])

/-- Claim C8: for every run with non-decreasing keys, the number of
BlockMetaEntry records in the final table equals the number of times the
block accumulator reported full plus one (the final seal); building with zero
add calls yields a table with exactly one (possibly empty) block and a
correctly positioned trailer. -/
theorem claim_C8_block_count (bs : Nat) (ps : List (List Nat × List Nat))
    (s : SsTableBuilder) (c : Nat) (id : Nat) (cache : Option Nat)
    (path : List Nat) (t : SsTable)
    (hsort : keysSortedB ps = true)
    (hrun : runAdds (SsTableBuilder.new bs) ps = some (s, c))
    (hbuild : s.build id cache path okCreate = some (Except.ok t)) :
    t.block_metas.length = c + 1
    ∧ (ps = [] →
        t.block_metas.length = 1
        ∧ t.file.contents.length
            = t.block_meta_offset + (encode_block_meta t.block_metas).length + 4
        ∧ trailerValue t = t.block_meta_offset) := by
  simp only [build_okCreate, Option.some.injEq, Except.ok.injEq] at hbuild
  subst hbuild
  have hlen := runAdds_meta_length ps _ s c hrun
  have hlen0 : (SsTableBuilder.new bs).meta.length = 0 := rfl
  constructor
  · rw [builtTable_metas, finish_block_eq]
    show (s.meta ++ [({ offset := s.data.length, first_key := s.first_key } : BlockMeta)]).length
        = c + 1
    rw [List.length_append]
    rw [hlen0] at hlen
    simp [hlen]
  · intro hps
    subst hps
    rw [runAdds_nil] at hrun
    simp only [Option.some.injEq, Prod.mk.injEq] at hrun
    obtain ⟨rfl, rfl⟩ := hrun
    refine ⟨rfl, ?_, ?_⟩
    · rw [builtTable_contents_length, builtTable_offset, builtTable_metas]
    · rw [builtTable_trailer, builtTable_offset]
      show (2 : Nat) % 2 ^ 32 = 2
      rw [pow_two_32_eq]

/-- Claim C8 witness: the count at a run with one full report, and the
zero-add instance. -/
theorem claim_C8_block_count_witness :
    (builtTable demoState).block_metas.length = 1 + 1
    ∧ (builtTable (SsTableBuilder.new 8)).block_metas.length = 1
    ∧ trailerValue (builtTable (SsTableBuilder.new 8))
        = (builtTable (SsTableBuilder.new 8)).block_meta_offset := by
  have h1 := claim_C8_block_count 8 demoPairs demoState 1 0 none []
    (builtTable demoState) (by decide) (by decide) (build_okCreate demoState 0 none [])
  have h2 := claim_C8_block_count 8 [] (SsTableBuilder.new 8) 0 0 none []
    (builtTable (SsTableBuilder.new 8)) (by decide) (by decide)
    (build_okCreate (SsTableBuilder.new 8) 0 none [])
  exact ⟨h1.1, (h2.2 rfl).1, (h2.2 rfl).2.2⟩

/-- Claim C9: estimated_size returns data.length (the bytes committed to
sealed blocks), is monotonically non-decreasing across add calls, is
unchanged by any add call that does not trigger a seal, and never exceeds the
final persisted data-region length. -/
theorem claim_C9_estimated_size :
    (∀ u : SsTableBuilder, u.estimated_size = u.data.length)
    ∧ (∀ (u : SsTableBuilder) (k v : List Nat) (u2 : SsTableBuilder),
        u.add k v = some u2 → u.estimated_size ≤ u2.estimated_size)
    ∧ (∀ (u : SsTableBuilder) (k v : List Nat) (u2 : SsTableBuilder),
        u.add k v = some u2 → (u.ongoing_block_builder.add k v).isSome = true →
        u2.estimated_size = u.estimated_size)
    ∧ (∀ (u : SsTableBuilder) (ps : List (List Nat × List Nat)) (u2 : SsTableBuilder)
        (c : Nat) (id : Nat) (cache : Option Nat) (path : List Nat) (t : SsTable),
        runAdds u ps = some (u2, c) →
        u2.build id cache path okCreate = some (Except.ok t) →
        u.estimated_size ≤ t.block_meta_offset) := by
  refine ⟨fun u => rfl, ?_, ?_, ?_⟩
  · intro u k v u2 hadd
    rcases tableBuilderAdd_eq_some hadd with ⟨b, hbb, rfl⟩ | ⟨b, hbbn, hbb2, rfl⟩
    · exact Nat.le_refl _
    · show u.data.length ≤ (u.data ++ u.ongoing_block_builder.encode).length
      rw [List.length_append]
      omega
  · intro u k v u2 hadd hsome
    rcases tableBuilderAdd_eq_some hadd with ⟨b, hbb, rfl⟩ | ⟨b, hbbn, hbb2, rfl⟩
    · rfl
    · rw [hbbn] at hsome
      simp at hsome
  · intro u ps u2 c id cache path t hrun hbuild
    simp only [build_okCreate, Option.some.injEq, Except.ok.injEq] at hbuild
    subst hbuild
    have h1 := runAdds_data_mono ps u u2 c hrun
    rw [builtTable_offset, finish_block_eq]
    show u.estimated_size ≤ (u2.data ++ u2.ongoing_block_builder.encode).length
    rw [List.length_append]
    show u.data.length ≤ _
    omega

/-- Claim C9 witness: the parts with hypotheses instantiated at concrete add
calls and a concrete run. -/
theorem claim_C9_estimated_size_witness :
    (SsTableBuilder.new 8).estimated_size ≤ demoAfterOne.estimated_size
    ∧ demoAfterOne.estimated_size = (SsTableBuilder.new 8).estimated_size
    ∧ (SsTableBuilder.new 8).estimated_size ≤ (builtTable demoState).block_meta_offset := by
  refine ⟨?_, ?_, ?_⟩
  · exact claim_C9_estimated_size.2.1 (SsTableBuilder.new 8) [1] [2] demoAfterOne
      (by decide)
  · exact claim_C9_estimated_size.2.2.1 (SsTableBuilder.new 8) [1] [2] demoAfterOne
      (by decide) (by decide)
  · exact claim_C9_estimated_size.2.2.2 (SsTableBuilder.new 8) demoPairs demoState 1
      0 none [] (builtTable demoState) (by decide) (build_okCreate demoState 0 none [])

/-- Claim C10: build writes the trailer as the data-region length reduced to
32 bits: the trailer always decodes to block_meta_offset modulo 2 ^ 32, which
equals block_meta_offset exactly when it is below 2 ^ 32 and differs from it
whenever the data region holds 2 ^ 32 bytes or more, while the
block_meta_offset field of the returned Table keeps the full untruncated
value. -/
theorem claim_C10_trailer_truncation (s : SsTableBuilder) (id : Nat)
    (cache : Option Nat) (path : List Nat) (t : SsTable)
    (hbuild : s.build id cache path okCreate = some (Except.ok t)) :
    trailerValue t = t.block_meta_offset % 2 ^ 32
    ∧ (t.block_meta_offset < 2 ^ 32 → trailerValue t = t.block_meta_offset)
    ∧ (2 ^ 32 ≤ t.block_meta_offset → trailerValue t ≠ t.block_meta_offset)
    ∧ t.block_meta_offset = s.finish_block.data.length := by
  simp only [build_okCreate, Option.some.injEq, Except.ok.injEq] at hbuild
  subst hbuild
  refine ⟨?_, ?_, ?_, rfl⟩
  · rw [builtTable_trailer, builtTable_offset]
  · intro h
    rw [builtTable_offset] at h
    rw [builtTable_trailer, builtTable_offset]
    exact Nat.mod_eq_of_lt h
  · intro h heq
    rw [builtTable_offset] at h
    rw [builtTable_trailer, builtTable_offset] at heq
    have hlt : s.finish_block.data.length % 2 ^ 32 < 2 ^ 32 :=
      Nat.mod_lt _ (by rw [pow_two_32_eq]; omega)
    omega

/-- Claim C10 witness: a small build where the trailer equals the offset, and
a build whose data region holds 2 ^ 32 + 2 bytes, where they disagree. -/
theorem claim_C10_trailer_truncation_witness :
    trailerValue (builtTable (SsTableBuilder.new 8))
        = (builtTable (SsTableBuilder.new 8)).block_meta_offset
    ∧ trailerValue (builtTable bigState) ≠ (builtTable bigState).block_meta_offset := by
  constructor
  · exact (claim_C10_trailer_truncation (SsTableBuilder.new 8) 0 none [] _
      (build_okCreate (SsTableBuilder.new 8) 0 none [])).2.1 (by decide)
  · refine (claim_C10_trailer_truncation bigState 0 none [] _
      (build_okCreate bigState 0 none [])).2.2.1 ?_
    rw [builtTable_offset, bigState_data_length]
    omega

end MiniLsm
